import Mathlib

/-!
Verification of the Dingo translation-task system.

Shallow embedding, in Lean 4, of the core logic of the Dingo repository:

* `translator.py` (`translate_text`) — the Gateway shim with whitespace
  handling, glossary instruction rendering and error recovery;
* `process.py` (`process_csv`) — the batched CSV translation pipeline;
* `worker.py` (`run_background_worker`) — the single-concurrency scheduler
  over the file-based task store, together with the external task
  operations of `routers/tasks.py` (upload / delete) as a step relation;
* `idml_processor.py` (`extract_idml_to_csv`, `rebuild_idml_from_csv`) —
  the IDML archive codec.

The external Ollama call is modelled as an oracle
`Gateway : String → String → Except Unit String` (model id and prompt in,
translated text or an exception out).  Python strings are Lean `String`s,
pandas `NaN` cells are `Option.none`, and the zip archive is a list of
named entries.
-/

namespace Dingo

/-! ## Python-style whitespace helpers (`str.strip` / `lstrip` / `rstrip`) -/
/-- The whitespace characters recognised by Python's `str.strip()` for
ASCII text. -/
def pyIsSpace (c : Char) : Bool :=
  c = ' ' || c = '\t' || c = '\n' || c = '\x0d' || c = '\x0b' || c = '\x0c'

/-- `l` with leading and trailing whitespace removed (list level). -/
def stripL (l : List Char) : List Char :=
  ((l.dropWhile pyIsSpace).reverse.dropWhile pyIsSpace).reverse

/-- Python `text.strip()`. -/
def pyStrip (s : String) : String := ⟨stripL s.data⟩

/-- `text[:len(text) - len(text.lstrip())]`: the leading whitespace of
`text` (translator.py line 25). -/
def leadingWs (s : String) : String := ⟨s.data.takeWhile pyIsSpace⟩

/-- `text[len(text.rstrip()):]`: the trailing whitespace of `text`
(translator.py line 26). -/
def trailingWs (s : String) : String := ⟨(s.data.reverse.takeWhile pyIsSpace).reverse⟩

/-! ## The Translation Gateway shim (`translator.py`, `translate_text`)

The Ollama client call `client.chat(model=..., messages=[prompt], ...)`
is modelled by an oracle taking the model id and the full prompt and
returning either the response content or an exception. -/
/-- The external translation capability: model id and prompt in,
response content or exception out. -/
abbrev Gateway : Type := String → String → Except Unit String

/-- One glossary entry's per-target-language value, as produced by
`load_glossary` (process.py): `none` models a `NaN`-turned-`None` cell
("do not translate"), `some s` a present cell. -/
abbrev LangMap : Type := List (String × Option String)

/-- The loaded glossary: base term to per-language translations.  The empty
list models both `glossary=None` and an empty dict (both falsy in
`if glossary and stripped_text`). -/
abbrev Glossary : Type := List (String × LangMap)

/-- Python's `\w` word character (ASCII fragment): letters, digits,
underscore. -/
def isWordChar (c : Char) : Bool := c.isAlphanum || c = '_'

/-- Whether the character at position `p` of `l` is a word character
(out-of-range counts as non-word, like a string edge in `re`). -/
def wordAt (l : List Char) (p : Nat) : Bool :=
  match l.get? p with
  | some c => isWordChar c
  | none => false

/-- A `\b` word boundary at position `p` of `l`: the characters on the two
sides of the position differ in word-character-ness. -/
def boundaryAt (l : List Char) (p : Nat) : Bool :=
  (if p = 0 then false else wordAt l (p - 1)) != wordAt l p

/-- `re.search(r'\b' + re.escape(term) + r'\b', text)`: some occurrence of
the literal `term` in `text` flanked by word boundaries. -/
def wholeWordMatch (term text : String) : Bool :=
  (List.range (text.data.length + 1)).any fun i =>
    ((text.data.drop i).take term.data.length == term.data)
      && boundaryAt text.data i && boundaryAt text.data (i + term.data.length)

/-- `translations.get(target_lang)` on a loaded glossary row: `none` when
the language key is absent or its cell was `NaN`/`None`. -/
def langGet (m : LangMap) (lang : String) : Option String :=
  match m.find? (fun p => p.1 == lang) with
  | some p => p.2
  | none => none

/-- The f-string of translator.py line 36. -/
def mandateLine (term tr : String) : String :=
  "- Always translate '" ++ term ++ "' (case-sensitive) as '" ++ tr ++ "'."

/-- The f-string of translator.py line 40. -/
def preserveLine (term : String) : String :=
  "- Do not translate '" ++ term ++
    "'; keep it exactly as written, including its original capitalization (case-sensitive)."

/-- The instruction line contributed by one glossary entry for the given
(stripped) text and target language, if the term matches as a whole word.
`if target_translation and not pd.isna(target_translation)` holds exactly
for a present, non-empty string cell. -/
def glossInstr (text lang : String) (e : String × LangMap) : Option String :=
  if wholeWordMatch e.1 text then
    some (match langGet e.2 lang with
      | some tr => if tr ≠ "" then mandateLine e.1 tr else preserveLine e.1
      | none => preserveLine e.1)
  else
    none

/-- `prompt_instructions` accumulated by the loop of translator.py lines
30–41 (iteration order = glossary order). -/
def promptInstructions (g : Glossary) (text lang : String) : List String :=
  g.filterMap (glossInstr text lang)

/-- The fixed general formatting rules (translator.py lines 43–47). -/
def generalRules : String :=
  "- Keep all Arabic numerals (0–9) unchanged.\n" ++
  "- Keep terms with numbers + units unchanged (e.g., mW, mHz, Mbps, dBm, GHz, MHz).\n" ++
  "- Keep acronyms/abbreviations in ALL CAPS unchanged (e.g., SSID, WPS, QoS).\n"

/-- Header above the glossary rules when any are present. -/
def glossaryHeader : String :=
  "Follow these rules in order of priority:\n\n1. Glossary rules (highest priority):\n"

/-- Transition from the glossary rules to the general rules. -/
def generalTail : String :=
  "\n\n2. Then apply the general non-translation rules:\n" ++ generalRules

/-- `rules_section` of translator.py lines 49–62. -/
def rulesSection (instrs : List String) : String :=
  if instrs ≠ [] then
    glossaryHeader ++ String.intercalate "\n" instrs ++ generalTail
  else
    "Follow these non-translation rules:\n\n" ++ generalRules

/-- The full prompt (translator.py lines 64–71). -/
def mkPrompt (srcLang tgtLang rules stripped : String) : String :=
  "Translate the following text from " ++ srcLang ++ " to " ++ tgtLang ++ ".\n\n" ++
  rules ++ "\n" ++
  "Both " ++ srcLang ++ " and " ++ tgtLang ++
  " are specified using BCP 47 language codes (e.g., en, fr-FR, fr-CA, pt-BR, zh-Hant, zh-Hans).\n" ++
  "Do not provide any explanation or extra text, only output the translation.\n\n" ++
  "The text to translate is: \"" ++ stripped ++ "\""

/-- `s.startswith('"') and s.endswith('"')` (true for the one-character
string consisting of a double quote, as in Python). -/
def quoteWrapped (s : String) : Bool :=
  (s.data.head? == some '"') && (s.data.getLast? == some '"')

/-- `s[1:-1]`. -/
def unquote (s : String) : String := ⟨(s.data.drop 1).dropLast⟩

/-- `translate_text` of translator.py.  Returns the produced string
together with the number of Gateway invocations made (0 or 1), so that
"the Gateway was never contacted" is expressible.  The `except` branch of
lines 90–93 returns the original `text_to_translate`. -/
def translateText (g : Gateway) (gl : Glossary) (text srcLang tgtLang model : String) :
    String × Nat :=
  let stripped := pyStrip text
  if stripped = "" then
    (text, 0)
  else
    let leading := leadingWs text
    let trailing := trailingWs text
    let instrs := promptInstructions gl stripped tgtLang
    let prompt := mkPrompt srcLang tgtLang (rulesSection instrs) stripped
    match g model prompt with
    | .error _ => (text, 1)
    | .ok resp =>
      let resp' := if quoteWrapped resp && !quoteWrapped stripped then unquote resp else resp
      (leading ++ resp' ++ trailing, 1)

/-! ## The Batch Translation Pipeline (`process.py`, `process_csv`) -/
/-- The parsed input table as `pd.read_csv` delivers it: whether the
`source` / `target` columns are present, and per row the two cells
(`none` models a `NaN` cell). -/
structure Csv where
  hasSource : Bool
  hasTarget : Bool
  rows : List (Option String × Option String)

/-- The exceptions `process_csv` can raise before any translation work:
the `ValueError` of line 61 for a missing `source` column, and the
`ValueError` Python's `range(0, total, 0)` raises for a zero step. -/
inductive PErr where
  | missingSourceColumn
  | zeroBatchStep

deriving DecidableEq

/-- Lines 63–67: add an all-empty `target` column when absent, then
`fillna('')` both columns. -/
def normRow (hasTarget : Bool) (r : Option String × Option String) : String × String :=
  (r.1.getD "", if hasTarget then r.2.getD "" else "")

/-- `df.index` enumeration starting at `i`. -/
def enumIdx (i : Nat) : List α → List (Nat × α)
  | [] => []
  | a :: l => (i, a) :: enumIdx (i + 1) l

/-- The work list of lines 69–75: with `overwrite=False` the rows whose
(filled) `target` cell is the empty string, with `overwrite=True` all
rows; each work item is the row index paired with the `source` cell. -/
def workList (overwrite : Bool) (rows : List (String × String)) : List (Nat × String) :=
  if overwrite then
    (enumIdx 0 rows).map (fun p => (p.1, p.2.1))
  else
    ((enumIdx 0 rows).filter (fun p => p.2.2 == "")).map (fun p => (p.1, p.2.1))

/-- `df.loc[i, 'target'] = v` for one row (out-of-range is a no-op, which
never happens for indices drawn from `df.index`). -/
def setTarget (rows : List (String × String)) (i : Nat) (v : String) :
    List (String × String) :=
  rows.set i ((rows.getD i ("", "")).1, v)

/-- The evolving state of the batch loop: the table, the cumulative
processed count, the number of Gateway invocations so far, and the
progress reports `(processed, total)` issued to the callback. -/
structure BatchState where
  rows : List (String × String)
  processed : Nat
  calls : Nat
  reports : List (Nat × Nat)

deriving DecidableEq

/-- One iteration of the loop of lines 92–113: translate the whole batch
(`asyncio.gather`), write the results back by row index, bump the
processed count and report progress. -/
def runBatch (g : Gateway) (gl : Glossary) (srcLang tgtLang model : String)
    (total : Nat) (batch : List (Nat × String)) (st : BatchState) : BatchState :=
  let results := batch.map (fun p => (p.1, translateText g gl p.2 srcLang tgtLang model))
  let rows' := results.foldl (fun rs q => setTarget rs q.1 q.2.1) st.rows
  let processed' := st.processed + results.length
  { rows := rows'
    processed := processed'
    calls := st.calls + (results.map (fun q => q.2.2)).sum
    reports := st.reports ++ [(processed', total)] }

/-- `for i in range(0, total, batch_size)`: peel `bs` work items per
iteration (`bs ≥ 1` is guaranteed by the `zeroBatchStep` guard). -/
def batchLoop (g : Gateway) (gl : Glossary) (srcLang tgtLang model : String)
    (total bs : Nat) : List (Nat × String) → BatchState → BatchState
  | [], st => st
  | w :: ws, st =>
    batchLoop g gl srcLang tgtLang model total bs (ws.drop (bs - 1))
      (runBatch g gl srcLang tgtLang model total (w :: ws.take (bs - 1)) st)
  termination_by work => work.length
  decreasing_by simp [List.length_drop]; omega

/-- The observable outcome of one `process_csv` run: the final table (the
contents of the `_processed.csv` checkpoint), the progress reports issued,
and the final processed count. -/
structure RunResult where
  rows : List (String × String)
  reports : List (Nat × Nat)
  processed : Nat

deriving DecidableEq

/-- `process_csv` of process.py, as a function of the Gateway oracle, the
loaded glossary and the parsed table.  The first component counts Gateway
invocations across the whole run (0 when the pipeline fails before
translating).  File reading/writing is abstracted away; the returned
`rows` are what the last checkpoint write persists. -/
def processCsv (g : Gateway) (gl : Glossary) (srcLang tgtLang model : String)
    (bs : Nat) (overwrite : Bool) (csv : Csv) : Nat × Except PErr RunResult :=
  if csv.hasSource then
    let rows := csv.rows.map (normRow csv.hasTarget)
    let work := workList overwrite rows
    let total := work.length
    let reports0 := [(0, total)]
    if total = 0 then
      (0, .ok ⟨rows, reports0, 0⟩)
    else if bs = 0 then
      (0, .error .zeroBatchStep)
    else
      let st := batchLoop g gl srcLang tgtLang model total bs work
        ⟨rows, 0, 0, reports0⟩
      (st.calls, .ok ⟨st.rows, st.reports, st.processed⟩)
  else
    (0, .error .missingSourceColumn)

/-! ## Task Store and Worker Scheduler (`storage.py`, `worker.py`,
`routers/tasks.py`)

The store is the JSON list in `tasks.json`; a `Task` models one record
with the fields created by `handle_upload`.  Every read-modify-write of
the store in the source (upload, delete, the worker's pick, the progress
callback, the worker's `finally` block) contains no `await` between
`read_tasks()` and `write_tasks(...)`, so under asyncio's cooperative
scheduling each one is a single atomic step on the store; the system is
modelled as a step relation over store snapshots. -/
/-- Task lifecycle status. -/
inductive Status where
  | pending
  | running
  | completed
  | cancelled
  | error

deriving DecidableEq

/-- One record of `tasks.json`, with the fields set up by
`routers/tasks.py::handle_upload`. -/
structure Task where
  id : String
  filename : String
  filepath : String
  fileType : String
  status : Status
  progress : Nat × Nat
  glossaryPath : Option String
  note : String
  ollamaHost : String
  model : String
  batchSize : Nat
  apiToken : String

deriving DecidableEq

/-- How the awaited job ended in the worker's `try` block
(worker.py lines 74–82). -/
inductive JobOutcome where
  | finished
  | cancelledSignal
  | raisedOther

deriving DecidableEq

/-- The status classification of worker.py lines 74–82: `completed` on
normal return, `cancelled` on `asyncio.CancelledError`, `error` on any
other exception. -/
def finalStatusOf : JobOutcome → Status
  | .finished => .completed
  | .cancelledSignal => .cancelled
  | .raisedOther => .error

/-- The worker's `finally` block (worker.py lines 83–98): drop the id from
the in-flight registry, write the final status only if the record still
exists in the store, and broadcast to observers regardless.  Returns
(new registry, new store, whether observers were notified). -/
def finalizeTask (taskId : String) (outcome : JobOutcome)
    (registry : List String) (store : List Task) :
    List String × List Task × Bool :=
  let registry' := registry.filter (fun i => i ≠ taskId)
  let store' :=
    if store.any (fun t => t.id == taskId) then
      store.map (fun t => if t.id = taskId then { t with status := finalStatusOf outcome } else t)
    else
      store
  (registry', store', true)

/-- Number of tasks whose status is `running` in a store snapshot. -/
def runningCount (store : List Task) : Nat :=
  (store.filter (fun t => t.status = Status.running)).length

/-- One atomic mutation of the persisted task list.  `enqueue` is
`handle_upload` (fresh uuid, status `pending`); `delete` is `delete_task`
(remove the record whatever its status); `pick` is worker.py lines 33–46
(only when no task is running, mark the first pending task running);
`report` is the worker's `progress_callback` (progress only); `finish` is
the `finally` block via `finalizeTask`. -/
inductive Step : List Task → List Task → Prop
  | enqueue (s : List Task) (t : Task)
      (hfresh : ∀ u ∈ s, u.id ≠ t.id)
      (hpend : t.status = .pending) :
      Step s (s ++ [t])
  | delete (s : List Task) (i : String) :
      Step s (s.filter (fun t => t.id ≠ i))
  | pick (s : List Task) (t0 : Task)
      (hnone : ∀ t ∈ s, t.status ≠ .running)
      (hfind : s.find? (fun t => t.status == Status.pending) = some t0) :
      Step s (s.map (fun t => if t.id = t0.id then { t with status := .running } else t))
  | report (s : List Task) (i : String) (p : Nat × Nat) :
      Step s (s.map (fun t => if t.id = i then { t with progress := p } else t))
  | finish (s : List Task) (i : String) (o : JobOutcome) (reg : List String) :
      Step s (finalizeTask i o reg s).2.1

/-- Snapshots reachable from `s` by any interleaving of the atomic
store mutations. -/
inductive Reach : List Task → List Task → Prop
  | refl (s : List Task) : Reach s s
  | tail {s t u : List Task} : Reach s t → Step t u → Reach s u

/-- The store invariant: record ids are pairwise distinct (uuid4 per
upload) and at most one record is `running`. -/
def StoreInv (s : List Task) : Prop :=
  (s.map (fun t => t.id)).Nodup ∧ runningCount s ≤ 1

/-! ## The Document Codec (`idml_processor.py`)

An IDML archive is a list of named zip entries in archive order.  A story
entry's bytes parse to an XML tree; `ElementTree` elements are modelled
as a tag, an optional text, and a child list.  The XPath
`.//CharacterStyleRange/Content` selects, in document order, every
element tagged `Content` whose parent is tagged `CharacterStyleRange`
and lies strictly below the root. -/
/-- An `ElementTree` element. -/
inductive Xml where
  | elem (tag : String) (text : Option String) (children : List Xml)

/-- The `.text` attribute of an element. -/
def Xml.textOf : Xml → Option String
  | .elem _ tx _ => tx

/-- `dict(zip(df.source, df.target))` lookup: later rows override earlier
ones with the same key. -/
def dictLookup (rows : List (String × String)) (k : String) : Option String :=
  (rows.reverse.find? (fun r => r.1 == k)).map (fun r => r.2)

/-- Lines 89–94 of idml_processor.py applied to one `Content` element's
text: replace it with the looked-up translation exactly when the trimmed
text is a key of the map and the translation is non-empty. -/
def applyRepl (m : List (String × String)) (tx : Option String) : Option String :=
  match dictLookup m (pyStrip (tx.getD "")) with
  | some tr => if tr ≠ "" then some tr else tx
  | none => tx

mutual
/-- Rewrite one element of a story tree.  `parentCSR` says whether the
element's parent is a `CharacterStyleRange` lying strictly below the
root (the condition for the element to be matched by
`.//CharacterStyleRange/Content`). -/
def rewriteNode (m : List (String × String)) (parentCSR : Bool) : Xml → Xml
  | .elem t tx ch =>
    .elem t (if parentCSR && t == "Content" then applyRepl m tx else tx)
      (rewriteList m (t == "CharacterStyleRange") ch)

/-- Rewrite a child list. -/
def rewriteList (m : List (String × String)) (parentCSR : Bool) : List Xml → List Xml
  | [] => []
  | c :: cs => rewriteNode m parentCSR c :: rewriteList m parentCSR cs
end

/-- Rewrite a whole story tree.  The root is not matched by `.//`, so its
children start with `parentCSR = false`. -/
def rewriteXml (m : List (String × String)) : Xml → Xml
  | .elem t tx ch => .elem t tx (rewriteList m false ch)

mutual
/-- The texts collected from one element by the extraction loop (lines
29–32): the stripped text of each matched `Content` element whose `.text`
is truthy, in document order. -/
def collectNode (parentCSR : Bool) : Xml → List String
  | .elem t tx ch =>
    (if parentCSR && t == "Content" then
      match tx with
      | some s => if s ≠ "" then [pyStrip s] else []
      | none => []
    else []) ++ collectList (t == "CharacterStyleRange") ch

/-- The texts collected from a child list. -/
def collectList (parentCSR : Bool) : List Xml → List String
  | [] => []
  | c :: cs => collectNode parentCSR c ++ collectList parentCSR cs
end

/-- The texts collected from a whole story tree. -/
def collectXml : Xml → List String
  | .elem _ _ ch => collectList false ch

/-- The content of one archive entry: a parsed story tree or raw bytes. -/
inductive EntryData where
  | xmlData (x : Xml)
  | rawData (b : String)

/-- One zip entry. -/
structure Entry where
  name : String
  data : EntryData

/-- `f.startswith('Stories/Story_') and f.endswith('.xml')`. -/
def isStoryName (n : String) : Bool :=
  "Stories/Story_".data.isPrefixOf n.data && ".xml".data.reverse.isPrefixOf n.data.reverse

/-- The extraction loop over `z.namelist()` (lines 22–32): concatenate
the collected texts of every story entry in archive order.  A story entry
that does not parse as XML raises (`ET.ParseError` → `ValueError`). -/
def storyTexts : List Entry → Except Unit (List String)
  | [] => .ok []
  | e :: es =>
    if isStoryName e.name then
      match e.data with
      | .xmlData x => (storyTexts es).map (fun rest => collectXml x ++ rest)
      | .rawData _ => .error ()
    else
      storyTexts es

/-- `extract_idml_to_csv`: the rows of the emitted two-column table, with
empty strings filtered out (line 39) and an empty `target` placeholder
per row (line 47). -/
def extractIdmlRows (a : List Entry) : Except Unit (List (String × String)) :=
  (storyTexts a).map (fun ts => (ts.filter (fun t => t ≠ "")).map (fun t => (t, "")))

/-- `rebuild_idml_from_csv`'s loop over `old_zip.infolist()` (lines
76–99): copy non-story entries unchanged, rewrite story entries through
the translation map; entry names and their order are kept. -/
def rebuildEntries (m : List (String × String)) : List Entry → Except Unit (List Entry)
  | [] => .ok []
  | e :: es =>
    if isStoryName e.name then
      match e.data with
      | .xmlData x =>
        (rebuildEntries m es).map
          (fun rest => { name := e.name, data := .xmlData (rewriteXml m x) } :: rest)
      | .rawData _ => .error ()
    else
      (rebuildEntries m es).map (fun rest => e :: rest)

/-- A parsed archive is well formed when every story-named entry holds a
parse tree. -/
def ArchiveWF (a : List Entry) : Prop :=
  ∀ e ∈ a, isStoryName e.name = true → ∃ x, e.data = EntryData.xmlData x

/-! ## Auxiliary definitions for the claims -/
/-- The work-list size that claim C2's wording predicts (refinement
comparison target, following the spec's words, not the source): with
`overwrite=false` the rows with empty target AND non-empty source, with
`overwrite=true` the rows with non-empty source. -/
def claimSelectedCount (overwrite : Bool) (rows : List (String × String)) : Nat :=
  if overwrite then
    (rows.filter (fun r => r.1 != "")).length
  else
    (rows.filter (fun r => r.2 == "" && r.1 != "")).length

/-- The default NA tokens of `pd.read_csv` (`keep_default_na=True`): a
field that textually equals one of these is parsed back to `NaN`. -/
def pdNaTokens : List String :=
  ["", "#N/A", "#N/A N/A", "#NA", "-1.#IND", "-1.#INF", "-1.#QNAN", "-NaN", "-nan",
   "1.#IND", "1.#INF", "1.#QNAN", "<NA>", "N/A", "NA", "NULL", "NaN", "None",
   "n/a", "nan", "null"]

/-- What one written cell reads back as after `pd.read_csv` and
`fillna('')`: an NA token comes back as the empty string, anything else
as itself.  (Numeric-like fields are additionally re-formatted by float
parsing + `astype(str)`, e.g. `"2.50"` → `"2.5"`; that never changes
whether a cell is empty and is not modelled, so conclusions are only
drawn about emptiness/selection, not about exact cell text.) -/
def pdRead (s : String) : String := if s ∈ pdNaTokens then "" else s

/-- Reading the `_processed.csv` checkpoint written by one run back in as
the next run's input table (both columns present): a cell whose text is
one of pandas' default NA tokens — including the empty string — parses
back to `NaN`; every other cell keeps its text. -/
def csvOfRows (rows : List (String × String)) : Csv :=
  ⟨true, true, rows.map (fun r =>
    (if r.1 ∈ pdNaTokens then none else some r.1,
     if r.2 ∈ pdNaTokens then none else some r.2))⟩

/-- Abbreviation: the translation produced for one source cell. -/
def trOf (g : Gateway) (gl : Glossary) (srcLang tgtLang model : String) (s : String) : String :=
  (translateText g gl s srcLang tgtLang model).1

/-- Abbreviation: the Gateway invocations made for one source cell. -/
def callsOf (g : Gateway) (gl : Glossary) (srcLang tgtLang model : String) (s : String) : Nat :=
  (translateText g gl s srcLang tgtLang model).2

/-- A one-story fixture tree (used by concrete witnesses). -/
def storyEx : Xml :=
  Xml.elem "Story" none
    [Xml.elem "CharacterStyleRange" none [Xml.elem "Content" (some "Hello") []]]

/-- A two-entry fixture archive: one raw entry, one story entry. -/
def archiveEx : List Entry :=
  [⟨"mimetype", EntryData.rawData "application/vnd.adobe.indesign-idml-package"⟩,
   ⟨"Stories/Story_u1.xml", EntryData.xmlData storyEx⟩]

/-- A pending fixture task (used by concrete witnesses). -/
def taskPending : Task :=
  ⟨"t1", "a.csv", "uploads/t1_a.csv", "csv", Status.pending, (0, 0), none, "",
    "http://localhost:11434", "m", 10, "tok"⟩

/-! Theorems. -/

theorem takeWhile_append_left {p : Char → Bool} (xs ys : List Char)
    (h : xs.dropWhile p ≠ []) :
    (xs ++ ys).takeWhile p = xs.takeWhile p := by
  induction xs with
  | nil => simp [List.dropWhile] at h
  | cons a xs ih =>
    by_cases hp : p a
    · simp only [List.dropWhile, hp] at h
      simp [List.takeWhile, hp, ih h]
    · simp [List.takeWhile, hp]

theorem stripL_eq_nil_iff (l : List Char) :
    stripL l = [] ↔ ∀ c ∈ l, pyIsSpace c = true := by
  unfold stripL
  rw [List.reverse_eq_nil_iff, List.dropWhile_eq_nil_iff]
  constructor
  · intro h c hc
    rw [← List.takeWhile_append_dropWhile (p := pyIsSpace) (l := l)] at hc
    rcases List.mem_append.mp hc with hc | hc
    · exact List.mem_takeWhile_imp hc
    · exact h c (List.mem_reverse.mpr hc)
  · intro h c hc
    exact h c ((List.dropWhile_sublist (p := pyIsSpace)).mem (List.mem_reverse.mp hc))

/-- For a string that is not all whitespace, the Python decomposition
`text == leading_whitespace + text.strip() + trailing_whitespace`. -/
theorem stripL_decomp (l : List Char) (h : stripL l ≠ []) :
    l = l.takeWhile pyIsSpace ++ stripL l ++ (l.reverse.takeWhile pyIsSpace).reverse := by
  have hm : l = l.takeWhile pyIsSpace ++ l.dropWhile pyIsSpace :=
    (List.takeWhile_append_dropWhile (p := pyIsSpace) (l := l)).symm
  set m := l.dropWhile pyIsSpace with hmdef
  have hdm : m.reverse.dropWhile pyIsSpace ≠ [] := by
    intro hh
    apply h
    unfold stripL
    rw [← hmdef, hh, List.reverse_nil]
  have hrev : m.reverse = m.reverse.takeWhile pyIsSpace ++ m.reverse.dropWhile pyIsSpace :=
    (List.takeWhile_append_dropWhile (p := pyIsSpace) (l := m.reverse)).symm
  have hm2 : m = (m.reverse.dropWhile pyIsSpace).reverse ++ (m.reverse.takeWhile pyIsSpace).reverse := by
    have h1 := congrArg List.reverse hrev
    rwa [List.reverse_reverse, List.reverse_append] at h1
  have htw : l.reverse.takeWhile pyIsSpace = m.reverse.takeWhile pyIsSpace := by
    have hlr : l.reverse = m.reverse ++ (l.takeWhile pyIsSpace).reverse := by
      conv_lhs => rw [hm]
      simp
    rw [hlr, takeWhile_append_left _ _ hdm]
  calc l = l.takeWhile pyIsSpace ++ m := hm
    _ = l.takeWhile pyIsSpace ++ ((m.reverse.dropWhile pyIsSpace).reverse
          ++ (m.reverse.takeWhile pyIsSpace).reverse) := by rw [← hm2]
    _ = l.takeWhile pyIsSpace ++ stripL l ++ (l.reverse.takeWhile pyIsSpace).reverse := by
      rw [htw]
      unfold stripL
      rw [← hmdef, List.append_assoc]

theorem str_data_inj {s t : String} (h : s.data = t.data) : s = t := by
  cases s; cases t; simp_all

/-- `text = leadingWs text ++ pyStrip text ++ trailingWs text` whenever the
stripped core is non-empty. -/
theorem strip_decomp (s : String) (h : pyStrip s ≠ "") :
    s = leadingWs s ++ pyStrip s ++ trailingWs s := by
  apply str_data_inj
  have hne : stripL s.data ≠ [] := by
    intro hh
    exact h (by simp [pyStrip, hh])
  have := stripL_decomp s.data hne
  simpa [leadingWs, pyStrip, trailingWs, String.data_append] using this

/-! ## Pipeline lemmas -/
theorem enumIdx_length : ∀ (l : List α) (i : Nat), (enumIdx i l).length = l.length
  | [], _ => rfl
  | _ :: l, i => by simp [enumIdx, enumIdx_length l (i + 1)]

theorem enumIdx_mem : ∀ (l : List α) (i j : Nat) (a : α),
    (j, a) ∈ enumIdx i l ↔ ∃ k, j = i + k ∧ l[k]? = some a
  | [], i, j, a => by simp [enumIdx]
  | b :: l, i, j, a => by
    simp only [enumIdx, List.mem_cons, Prod.mk.injEq, enumIdx_mem l (i + 1) j a]
    constructor
    · rintro (⟨rfl, rfl⟩ | ⟨k, rfl, hk⟩)
      · exact ⟨0, by omega, by simp⟩
      · exact ⟨k + 1, by omega, by simpa using hk⟩
    · rintro ⟨k, rfl, hk⟩
      match k with
      | 0 =>
        left
        simp only [List.getElem?_cons_zero, Option.some.injEq] at hk
        exact ⟨by omega, hk.symm⟩
      | k + 1 =>
        right
        exact ⟨k, by omega, by simpa using hk⟩

/-- The indices listed by `enumIdx i l` are `[i, i+1, …]`. -/
theorem enumIdx_map_fst : ∀ (l : List α) (i : Nat),
    (enumIdx i l).map (fun p => p.1) = List.range' i l.length
  | [], _ => rfl
  | _ :: l, i => by
    simp [enumIdx, List.range', enumIdx_map_fst l (i + 1)]

/-- With `overwrite=False`, a row index/source pair is selected exactly
when that row's target cell is empty. -/
theorem workList_false_mem (rows : List (String × String)) (i : Nat) (s : String) :
    (i, s) ∈ workList false rows ↔ rows[i]? = some (s, "") := by
  unfold workList
  simp only [Bool.false_eq_true, if_false, List.mem_map, List.mem_filter]
  constructor
  · rintro ⟨⟨j, sv, tv⟩, ⟨hmem, ht⟩, hps⟩
    simp only [Prod.mk.injEq] at hps
    obtain ⟨rfl, rfl⟩ := hps
    rcases (enumIdx_mem rows 0 j (sv, tv)).mp hmem with ⟨k, hk0, hk⟩
    simp only [beq_iff_eq] at ht
    subst ht
    have : j = k := by omega
    subst this
    exact hk
  · intro h
    refine ⟨(i, (s, "")), ⟨(enumIdx_mem rows 0 i (s, "")).mpr ⟨i, by omega, h⟩, by simp⟩, rfl⟩

/-- With `overwrite=True`, every row is selected. -/
theorem workList_true_mem (rows : List (String × String)) (i : Nat) (s : String) :
    (i, s) ∈ workList true rows ↔ ∃ t, rows[i]? = some (s, t) := by
  unfold workList
  simp only [if_true, List.mem_map]
  constructor
  · rintro ⟨⟨j, sv, tv⟩, hmem, hps⟩
    simp only [Prod.mk.injEq] at hps
    obtain ⟨rfl, rfl⟩ := hps
    rcases (enumIdx_mem rows 0 j (sv, tv)).mp hmem with ⟨k, hk0, hk⟩
    have : j = k := by omega
    subst this
    exact ⟨tv, hk⟩
  · rintro ⟨t, h⟩
    exact ⟨(i, (s, t)), (enumIdx_mem rows 0 i (s, t)).mpr ⟨i, by omega, h⟩, rfl⟩

theorem filter_enumIdx_length : ∀ (rows : List (String × String)) (i : Nat),
    ((enumIdx i rows).filter (fun p => p.2.2 == "")).length =
      (rows.filter (fun r => r.2 == "")).length
  | [], _ => rfl
  | r :: rows, i => by
    simp only [enumIdx, List.filter_cons]
    cases h : (r.2 == "") <;>
      simp [h, filter_enumIdx_length rows (i + 1)]

/-- Selection size with `overwrite=False`: the number of empty-target rows. -/
theorem workList_false_length (rows : List (String × String)) :
    (workList false rows).length = (rows.filter (fun r => r.2 == "")).length := by
  simp [workList, filter_enumIdx_length]

/-- Selection size with `overwrite=True`: every row. -/
theorem workList_true_length (rows : List (String × String)) :
    (workList true rows).length = rows.length := by
  simp [workList, enumIdx_length]

/-- The selected row indices are pairwise distinct. -/
theorem workList_nodup_fst (ow : Bool) (rows : List (String × String)) :
    ((workList ow rows).map (fun p => p.1)).Nodup := by
  have hr : (List.range' 0 rows.length).Nodup := List.nodup_range' 0 rows.length
  cases ow
  · unfold workList
    simp only [Bool.false_eq_true, if_false, List.map_map]
    have hsub : ((enumIdx 0 rows).filter (fun p => p.2.2 == "")).Sublist (enumIdx 0 rows) :=
      List.filter_sublist _
    have := (hsub.map (fun p => p.1)).nodup (by rw [enumIdx_map_fst]; exact hr)
    simpa [Function.comp] using this
  · unfold workList
    simp only [if_true, List.map_map]
    have := enumIdx_map_fst rows 0
    rw [show ((fun p => p.1) ∘ fun p => (p.1, p.2.1) : Nat × (String × String) → Nat) = fun p => p.1 from rfl]
    rw [this]
    exact hr

/-- A work list never pairs the same row index with two sources. -/
theorem workList_find_eq (ow : Bool) (rows : List (String × String)) (j : Nat) (p : Nat × String)
    (h : (workList ow rows).find? (fun q => q.1 == j) = some p) :
    p.1 = j ∧ p ∈ workList ow rows := by
  refine ⟨by simpa using List.find?_some h, List.mem_of_find?_eq_some h⟩

/-- One batch writes back each unit's translation at its row index. -/
theorem runBatch_rows (g : Gateway) (gl : Glossary) (sl tl md : String) (total : Nat)
    (batch : List (Nat × String)) (st : BatchState) :
    (runBatch g gl sl tl md total batch st).rows =
      batch.foldl (fun rs p => setTarget rs p.1 (trOf g gl sl tl md p.2)) st.rows := by
  unfold runBatch trOf
  dsimp only
  rw [List.foldl_map]

theorem runBatch_processed (g : Gateway) (gl : Glossary) (sl tl md : String) (total : Nat)
    (batch : List (Nat × String)) (st : BatchState) :
    (runBatch g gl sl tl md total batch st).processed = st.processed + batch.length := by
  unfold runBatch
  dsimp only
  rw [List.length_map]

theorem runBatch_calls (g : Gateway) (gl : Glossary) (sl tl md : String) (total : Nat)
    (batch : List (Nat × String)) (st : BatchState) :
    (runBatch g gl sl tl md total batch st).calls =
      st.calls + (batch.map (fun p => callsOf g gl sl tl md p.2)).sum := by
  unfold runBatch callsOf
  dsimp only
  rw [List.map_map]
  rfl

theorem runBatch_reports (g : Gateway) (gl : Glossary) (sl tl md : String) (total : Nat)
    (batch : List (Nat × String)) (st : BatchState) :
    (runBatch g gl sl tl md total batch st).reports =
      st.reports ++ [(st.processed + batch.length, total)] := by
  unfold runBatch
  dsimp only
  rw [List.length_map]

/-- Batching only groups the work items; the final table is the one-shot
write-back of every translated unit at its row index. -/
theorem batchLoop_rows (g : Gateway) (gl : Glossary) (sl tl md : String) (total bs : Nat)
    (work : List (Nat × String)) (st : BatchState) :
    (batchLoop g gl sl tl md total bs work st).rows =
      work.foldl (fun rs p => setTarget rs p.1 (trOf g gl sl tl md p.2)) st.rows := by
  induction work, st using batchLoop.induct g gl sl tl md total bs with
  | case1 st => simp [batchLoop.eq_def]
  | case2 w ws st ih =>
    rw [batchLoop.eq_def]
    dsimp only
    rw [ih, runBatch_rows, ← List.foldl_append]
    congr 1
    simp [List.take_append_drop]

/-- The cumulative processed count reaches the whole work-list length. -/
theorem batchLoop_processed (g : Gateway) (gl : Glossary) (sl tl md : String) (total bs : Nat)
    (work : List (Nat × String)) (st : BatchState) :
    (batchLoop g gl sl tl md total bs work st).processed = st.processed + work.length := by
  induction work, st using batchLoop.induct g gl sl tl md total bs with
  | case1 st => simp [batchLoop.eq_def]
  | case2 w ws st ih =>
    rw [batchLoop.eq_def]
    dsimp only
    rw [ih, runBatch_processed]
    have h := congrArg List.length (List.take_append_drop (bs - 1) ws)
    simp only [List.length_append] at h
    simp only [List.length_cons]
    omega

/-- Gateway invocations across batches sum per work item. -/
theorem batchLoop_calls (g : Gateway) (gl : Glossary) (sl tl md : String) (total bs : Nat)
    (work : List (Nat × String)) (st : BatchState) :
    (batchLoop g gl sl tl md total bs work st).calls =
      st.calls + (work.map (fun p => callsOf g gl sl tl md p.2)).sum := by
  induction work, st using batchLoop.induct g gl sl tl md total bs with
  | case1 st => simp [batchLoop.eq_def]
  | case2 w ws st ih =>
    rw [batchLoop.eq_def]
    dsimp only
    rw [ih, runBatch_calls, Nat.add_assoc]
    congr 1
    rw [← List.sum_append, ← List.map_append]
    congr 2
    simp [List.take_append_drop]

/-- The reports already issued are only appended to. -/
theorem batchLoop_reports_prefix (g : Gateway) (gl : Glossary) (sl tl md : String)
    (total bs : Nat) (work : List (Nat × String)) (st : BatchState) :
    ∃ more, (batchLoop g gl sl tl md total bs work st).reports = st.reports ++ more := by
  induction work, st using batchLoop.induct g gl sl tl md total bs with
  | case1 st => exact ⟨[], by simp [batchLoop.eq_def]⟩
  | case2 w ws st ih =>
    rw [batchLoop.eq_def]
    dsimp only
    rcases ih with ⟨more, hmore⟩
    rw [hmore, runBatch_reports]
    exact ⟨_, List.append_assoc _ _ _⟩

/-- Writing a target at index `i` rewrites exactly that entry, keeping its
source component. -/
theorem setTarget_getElem_self (rows : List (String × String)) (i : Nat) (v : String) :
    (setTarget rows i v)[i]? = (rows[i]?).map (fun r => (r.1, v)) := by
  unfold setTarget
  rw [List.getElem?_set]
  simp only [if_pos rfl]
  by_cases h : i < rows.length
  · have hr := List.getElem?_eq_getElem h
    rw [if_pos h, hr, Option.map_some']
    have hd : rows.getD i ("", "") = rows[i] := by
      rw [List.getD_eq_getElem?_getD, hr]
      rfl
    rw [hd]
    simp
  · rw [if_neg h, List.getElem?_eq_none (Nat.le_of_not_lt h)]
    rfl

/-- Writing a target at index `i` leaves every other index unchanged. -/
theorem setTarget_getElem_other (rows : List (String × String)) (i j : Nat) (v : String)
    (h : i ≠ j) : (setTarget rows i v)[j]? = rows[j]? := by
  unfold setTarget
  exact List.getElem?_set_ne h

/-- Folding the write-backs of a work list with pairwise-distinct indices:
entry `j` becomes the translation of the work item at `j` when there is
one and stays put otherwise. -/
theorem foldl_setTarget_getElem (f : String → String) :
    ∀ (work : List (Nat × String)) (rows : List (String × String)) (j : Nat),
      ((work.map (fun p => p.1)).Nodup) →
      (work.foldl (fun rs p => setTarget rs p.1 (f p.2)) rows)[j]? =
        (match work.find? (fun p => p.1 == j) with
         | some p => (rows[j]?).map (fun r => (r.1, f p.2))
         | none => rows[j]?) := by
  intro work
  induction work with
  | nil => intro rows j _; simp
  | cons w ws ih =>
    intro rows j hnd
    rw [List.map_cons] at hnd
    rcases List.nodup_cons.mp hnd with ⟨hnotin, hnd'⟩
    simp only [List.foldl_cons]
    rw [ih _ _ hnd']
    by_cases hw : w.1 = j
    · subst hw
      have hfind : (w :: ws).find? (fun p => p.1 == w.1) = some w :=
        List.find?_cons_of_pos _ (by simp)
      have hws : ws.find? (fun p => p.1 == w.1) = none := by
        rw [List.find?_eq_none]
        intro x hx hpx
        exact hnotin (by
          simp only [beq_iff_eq] at hpx
          exact hpx ▸ List.mem_map.mpr ⟨x, hx, rfl⟩)
      rw [hfind, hws]
      exact setTarget_getElem_self rows w.1 (f w.2)
    · have hfind : (w :: ws).find? (fun p => p.1 == j) = ws.find? (fun p => p.1 == j) :=
        List.find?_cons_of_neg _ (by simpa using hw)
      rw [hfind, setTarget_getElem_other rows w.1 j (f w.2) hw]

/-! ## Translator lemmas -/
theorem pyStrip_eq_empty_iff (s : String) :
    pyStrip s = "" ↔ ∀ c ∈ s.data, pyIsSpace c = true := by
  rw [← stripL_eq_nil_iff]
  constructor
  · intro h
    have := congrArg String.data h
    simpa [pyStrip] using this
  · intro h
    simp [pyStrip, h]

/-- Whitespace-only input short-circuits: the original string comes back
and the Gateway is never contacted. -/
theorem translateText_all_ws (g : Gateway) (gl : Glossary) (text sl tl md : String)
    (h : pyStrip text = "") : translateText g gl text sl tl md = (text, 0) := by
  simp [translateText, h]

theorem append_ne_empty_mid (a b c : String) (h : b ≠ "") : a ++ b ++ c ≠ "" := by
  intro hh
  have hd := congrArg String.data hh
  simp only [String.data_append] at hd
  rcases List.append_eq_nil.mp hd with ⟨hd1, hd2⟩
  rcases List.append_eq_nil.mp hd1 with ⟨_, hdb⟩
  exact h (str_data_inj (by simpa using hdb))

/-- Whatever the Gateway answers (or throws), the result of a non-blank
unit is the input's own whitespace around some core, with one Gateway
invocation. -/
theorem translateText_core (g : Gateway) (gl : Glossary) (text sl tl md : String)
    (h : pyStrip text ≠ "") :
    ∃ core, translateText g gl text sl tl md = (leadingWs text ++ core ++ trailingWs text, 1) := by
  unfold translateText
  simp only [if_neg h]
  cases hG : g md (mkPrompt sl tl (rulesSection (promptInstructions gl (pyStrip text) tl)) (pyStrip text)) with
  | error e =>
    refine ⟨pyStrip text, ?_⟩
    rw [← strip_decomp text h]
  | ok resp => exact ⟨_, rfl⟩

/-- No pandas NA token starts with a whitespace character. -/
theorem pdNaTokens_head_not_ws :
    ∀ t ∈ pdNaTokens, ∀ c, t.data.head? = some c → pyIsSpace c = false := by decide

/-- No pandas NA token ends with a whitespace character. -/
theorem pdNaTokens_last_not_ws :
    ∀ t ∈ pdNaTokens, ∀ c, t.data.getLast? = some c → pyIsSpace c = false := by decide

theorem not_na_of_head_ws {s : String} {c : Char} (h : s.data.head? = some c)
    (hc : pyIsSpace c = true) : s ∉ pdNaTokens := by
  intro hmem
  have hf := pdNaTokens_head_not_ws s hmem c h
  rw [hc] at hf
  cases hf

theorem not_na_of_last_ws {s : String} {c : Char} (h : s.data.getLast? = some c)
    (hc : pyIsSpace c = true) : s ∉ pdNaTokens := by
  intro hmem
  have hf := pdNaTokens_last_not_ws s hmem c h
  rw [hc] at hf
  cases hf

theorem leadingWs_all_ws (s : String) : ∀ c ∈ (leadingWs s).data, pyIsSpace c = true :=
  fun _ hc => List.mem_takeWhile_imp hc

theorem trailingWs_all_ws (s : String) : ∀ c ∈ (trailingWs s).data, pyIsSpace c = true := by
  intro c hc
  simp only [trailingWs] at hc
  rw [List.mem_reverse] at hc
  exact List.mem_takeWhile_imp hc

/-- If the Gateway only ever answers with text that is not one of pandas'
NA tokens and not quote-wrapped, then a source cell outside the NA
tokens never produces an NA-token result (in particular, never the empty
string): the result is either the source itself, the bare answer, or the
answer padded with the source's own whitespace — and no NA token starts
or ends with whitespace. -/
theorem translateText_not_na (g : Gateway) (gl : Glossary) (s sl tl md : String)
    (hsrc : s ∉ pdNaTokens)
    (H2 : ∀ mo p r, g mo p = Except.ok r → r ∉ pdNaTokens ∧ quoteWrapped r = false) :
    (translateText g gl s sl tl md).1 ∉ pdNaTokens := by
  by_cases h : pyStrip s = ""
  · rw [translateText_all_ws g gl s sl tl md h]
    exact hsrc
  · unfold translateText
    simp only [if_neg h]
    cases hG : g md (mkPrompt sl tl (rulesSection (promptInstructions gl (pyStrip s) tl)) (pyStrip s)) with
    | error e => exact hsrc
    | ok resp =>
      rcases H2 md _ resp hG with ⟨hna, hqw⟩
      simp only [hqw, Bool.false_and, Bool.false_eq_true, if_false]
      by_cases hl : leadingWs s = ""
      · by_cases ht : trailingWs s = ""
        · have hv : leadingWs s ++ resp ++ trailingWs s = resp := by
            rw [hl, ht]
            apply str_data_inj
            simp [String.data_append]
          rw [hv]
          exact hna
        · have htd : (trailingWs s).data ≠ [] := by
            intro hh
            exact ht (str_data_inj (by simpa using hh))
          obtain ⟨c, hc⟩ : ∃ c, (trailingWs s).data.getLast? = some c := by
            rcases hg : (trailingWs s).data.getLast? with _ | c
            · exact absurd (List.getLast?_eq_none_iff.mp hg) htd
            · exact ⟨c, rfl⟩
          have hval : (leadingWs s ++ resp ++ trailingWs s).data.getLast? = some c := by
            simp only [String.data_append]
            rw [List.getLast?_append_of_ne_nil _ htd, hc]
          exact not_na_of_last_ws hval
            (trailingWs_all_ws s c (List.mem_of_mem_getLast? (Option.mem_def.mpr hc)))
      · have hld : (leadingWs s).data ≠ [] := by
          intro hh
          exact hl (str_data_inj (by simpa using hh))
        obtain ⟨c, hc⟩ : ∃ c, (leadingWs s).data.head? = some c := by
          rcases hg : (leadingWs s).data.head? with _ | c
          · exact absurd (List.head?_eq_none_iff.mp hg) hld
          · exact ⟨c, rfl⟩
        have hval : (leadingWs s ++ resp ++ trailingWs s).data.head? = some c := by
          simp only [String.data_append]
          rw [List.head?_append, List.head?_append, hc]
          rfl
        exact not_na_of_head_ws hval
          (leadingWs_all_ws s c (List.mem_of_mem_head? (Option.mem_def.mpr hc)))

/-- The first progress report of a successful run announces the work-list
size as the total. -/
theorem processCsv_ok_reports_head (g : Gateway) (gl : Glossary) (sl tl md : String)
    (bs : Nat) (ow : Bool) (csv : Csv) (res : RunResult)
    (hs : csv.hasSource = true)
    (h : (processCsv g gl sl tl md bs ow csv).2 = Except.ok res) :
    res.reports.head? =
      some (0, (workList ow (csv.rows.map (normRow csv.hasTarget))).length) := by
  simp only [processCsv, hs, if_true] at h
  split at h
  · rename_i h0
    rw [Except.ok.injEq] at h
    rw [← h, h0]
    rfl
  · split at h
    · exact absurd h (by simp)
    · rw [Except.ok.injEq] at h
      rw [← h]
      dsimp only
      rcases batchLoop_reports_prefix g gl sl tl md
        (workList ow (csv.rows.map (normRow csv.hasTarget))).length bs
        (workList ow (csv.rows.map (normRow csv.hasTarget)))
        ⟨csv.rows.map (normRow csv.hasTarget), 0, 0,
          [(0, (workList ow (csv.rows.map (normRow csv.hasTarget))).length)]⟩ with ⟨more, hmore⟩
      rw [hmore]
      rfl

/-- After a successful `overwrite=False` run against a Gateway that never
answers with an NA token or quote-wrapped text, on a table whose
empty-target rows have sources outside the NA tokens and whose non-empty
target cells are outside the NA tokens, every resulting target cell is
outside pandas' NA tokens. -/
theorem processCsv_false_targets_na (g : Gateway) (gl : Glossary) (sl tl md : String)
    (bs : Nat) (csv : Csv) (res : RunResult)
    (hs : csv.hasSource = true)
    (H1 : ∀ r ∈ csv.rows.map (normRow csv.hasTarget), r.2 = "" → r.1 ∉ pdNaTokens)
    (H1t : ∀ r ∈ csv.rows.map (normRow csv.hasTarget), r.2 ≠ "" → r.2 ∉ pdNaTokens)
    (H2 : ∀ mo p r, g mo p = Except.ok r → r ∉ pdNaTokens ∧ quoteWrapped r = false)
    (h : (processCsv g gl sl tl md bs false csv).2 = Except.ok res) :
    ∀ r ∈ res.rows, r.2 ∉ pdNaTokens := by
  have hmem_of_empty : ∀ (j : Nat) (r : String × String),
      (csv.rows.map (normRow csv.hasTarget))[j]? = some r → r.2 = "" →
      (j, r.1) ∈ workList false (csv.rows.map (normRow csv.hasTarget)) := by
    intro j r hj hr2
    rw [workList_false_mem]
    have : r = (r.1, "") := by
      rw [← hr2]
    rw [← this]
    exact hj
  simp only [processCsv, hs, if_true] at h
  split at h
  · rename_i h0
    rw [Except.ok.injEq] at h
    subst h
    intro r hr
    by_cases hr2 : r.2 = ""
    · rw [List.length_eq_zero] at h0
      obtain ⟨j, hj⟩ := List.mem_iff_getElem?.mp hr
      have hmm := hmem_of_empty j r hj hr2
      rw [h0] at hmm
      simp at hmm
    · exact H1t r hr hr2
  · split at h
    · exact absurd h (by simp)
    · rw [Except.ok.injEq] at h
      subst h
      intro r hr
      dsimp only at hr
      rw [batchLoop_rows] at hr
      obtain ⟨j, hj⟩ := List.mem_iff_getElem?.mp hr
      rw [foldl_setTarget_getElem (trOf g gl sl tl md) _ _ j
        (workList_nodup_fst false (csv.rows.map (normRow csv.hasTarget)))] at hj
      rcases hf : (workList false (csv.rows.map (normRow csv.hasTarget))).find?
          (fun p => p.1 == j) with _ | p
      · rw [hf] at hj
        dsimp only at hj
        by_cases hr2 : r.2 = ""
        · have hmm := hmem_of_empty j r hj hr2
          rw [List.find?_eq_none] at hf
          exact absurd (by simp) (hf (j, r.1) hmm)
        · exact H1t r (List.mem_iff_getElem?.mpr ⟨j, hj⟩) hr2
      · rw [hf] at hj
        dsimp only at hj
        obtain ⟨hpj, hpmem⟩ := workList_find_eq false _ j p hf
        rw [workList_false_mem] at hpmem
        obtain ⟨q, hq, hqr⟩ : ∃ q, (csv.rows.map (normRow csv.hasTarget))[j]? = some q ∧
            r = (q.1, trOf g gl sl tl md p.2) := by
          rcases hrq : (csv.rows.map (normRow csv.hasTarget))[j]? with _ | q
          · rw [hrq] at hj
            simp at hj
          · rw [hrq] at hj
            simp only [Option.map_some', Option.some.injEq] at hj
            exact ⟨q, rfl, hj.symm⟩
        have hq' : (csv.rows.map (normRow csv.hasTarget))[j]? = some (p.2, "") := by
          rw [hpj] at hpmem
          exact hpmem
        have hqq : q = (p.2, "") := by
          rw [hq] at hq'
          exact Option.some.inj hq'
        have hsrc : p.2 ∉ pdNaTokens := by
          apply H1 (p.2, "")
          · rw [← hqq]
            exact List.mem_iff_getElem?.mpr ⟨j, hq⟩
          · rfl
        have hnot := translateText_not_na g gl p.2 sl tl md hsrc H2
        rw [hqr]
        exact hnot

/-- Re-reading a checkpoint table yields the `pdRead` of each written
cell. -/
theorem csvOfRows_norm (rows : List (String × String)) :
    (csvOfRows rows).rows.map (normRow true) =
      rows.map (fun r => (pdRead r.1, pdRead r.2)) := by
  unfold csvOfRows
  dsimp only
  rw [List.map_map]
  apply List.map_congr_left
  intro r _
  by_cases h1 : r.1 ∈ pdNaTokens <;> by_cases h2 : r.2 ∈ pdNaTokens <;>
    simp [normRow, pdRead, h1, h2, Function.comp]

/-- A re-read run whose work list is empty makes no Gateway call, reports
`(0, 0)` once and finishes with processed count 0. -/
theorem processCsv_empty_work (g : Gateway) (gl : Glossary) (sl tl md : String)
    (bs : Nat) (rows : List (String × String))
    (h : workList false (rows.map (fun r => (pdRead r.1, pdRead r.2))) = []) :
    (processCsv g gl sl tl md bs false (csvOfRows rows)).1 = 0 ∧
    ∃ res2, (processCsv g gl sl tl md bs false (csvOfRows rows)).2 = Except.ok res2 ∧
      res2.processed = 0 ∧ res2.reports = [(0, 0)] := by
  have hs1 : (csvOfRows rows).hasSource = true := rfl
  have hs2 : (csvOfRows rows).hasTarget = true := rfl
  have hn := csvOfRows_norm rows
  simp only [processCsv, hs1, hs2, if_true]
  rw [hn, h]
  simp only [List.length_nil, if_pos rfl]
  exact ⟨rfl, ⟨_, rfl, rfl, rfl⟩⟩

/-! ## Worker Scheduler lemmas -/
theorem runningCount_eq_countP (s : List Task) :
    runningCount s = s.countP (fun t => t.status = Status.running) := by
  rw [runningCount, ← List.countP_eq_length_filter]

/-- A store with pairwise-distinct ids contains at most one record with
any given id. -/
theorem countP_id_le_one (s : List Task) (hnd : (s.map (fun t => t.id)).Nodup) (v : String) :
    s.countP (fun t => t.id = v) ≤ 1 := by
  induction s with
  | nil => simp
  | cons t ts ih =>
    rw [List.map_cons] at hnd
    rcases List.nodup_cons.mp hnd with ⟨hnotin, hnd'⟩
    rw [List.countP_cons]
    by_cases ht : t.id = v
    · have hzero : ts.countP (fun t => t.id = v) = 0 := by
        rw [List.countP_eq_zero]
        intro x hx hxv
        simp only [decide_eq_true_eq] at hxv
        exact hnotin (ht ▸ hxv ▸ List.mem_map.mpr ⟨x, hx, rfl⟩)
      simp [ht, hzero]
    · simp [ht, ih hnd']

/-- Every atomic store mutation preserves the store invariant. -/
theorem step_preserves_inv {s u : List Task} (h : Step s u) (hi : StoreInv s) : StoreInv u := by
  rcases hi with ⟨hnd, hrc⟩
  cases h with
  | enqueue t hfresh hpend =>
    constructor
    · rw [List.map_append, List.nodup_append]
      refine ⟨hnd, by simp, ?_⟩
      intro a ha hb
      simp only [List.map_cons, List.map_nil, List.mem_singleton] at hb
      rcases List.mem_map.mp ha with ⟨w, hw, rfl⟩
      exact hfresh w hw hb
    · rw [runningCount, List.filter_append] at *
      have : [t].filter (fun t => t.status = Status.running) = [] := by
        simp [List.filter, hpend]
      rw [this, List.append_nil]
      exact hrc
  | delete i =>
    constructor
    · exact List.Nodup.sublist (List.Sublist.map _ (List.filter_sublist s)) hnd
    · calc runningCount (s.filter fun t => t.id ≠ i)
          ≤ runningCount s :=
            List.Sublist.length_le
              (List.Sublist.filter _ (List.filter_sublist s))
        _ ≤ 1 := hrc
  | pick t0 hnone hfind =>
    have hids : ((s.map fun t =>
        if t.id = t0.id then { t with status := Status.running } else t).map fun t => t.id) =
        s.map fun t => t.id := by
      rw [List.map_map]
      apply List.map_congr_left
      intro t _
      by_cases h : t.id = t0.id <;> simp [h]
    constructor
    · rw [hids]; exact hnd
    · rw [runningCount_eq_countP, List.countP_map]
      have hcong : s.countP ((fun t => t.status = Status.running) ∘ fun t =>
          if t.id = t0.id then { t with status := Status.running } else t) =
          s.countP (fun t => t.id = t0.id) := by
        apply List.countP_congr
        intro t ht
        by_cases h : t.id = t0.id
        · simp [Function.comp, h]
        · simp only [Function.comp, if_neg h]
          simp only [decide_eq_true_eq, decide_eq_decide]
          constructor
          · intro hrun
            exact absurd hrun (hnone t ht)
          · intro hh
            exact absurd hh h
      rw [hcong]
      exact countP_id_le_one s hnd t0.id
  | report i p =>
    have hids : ((s.map fun t => if t.id = i then { t with progress := p } else t).map
        fun t => t.id) = s.map fun t => t.id := by
      rw [List.map_map]
      apply List.map_congr_left
      intro t _
      by_cases h : t.id = i <;> simp [h]
    constructor
    · rw [hids]; exact hnd
    · rw [runningCount_eq_countP, List.countP_map]
      have hcong : s.countP ((fun t => t.status = Status.running) ∘ fun t =>
          if t.id = i then { t with progress := p } else t) =
          s.countP (fun t => t.status = Status.running) := by
        apply List.countP_congr
        intro t _
        by_cases h : t.id = i <;> simp [Function.comp, h]
      rw [hcong, ← runningCount_eq_countP]
      exact hrc
  | finish i o reg =>
    unfold finalizeTask
    dsimp only
    split
    · have hids : ((s.map fun t =>
          if t.id = i then { t with status := finalStatusOf o } else t).map fun t => t.id) =
          s.map fun t => t.id := by
        rw [List.map_map]
        apply List.map_congr_left
        intro t _
        by_cases h : t.id = i <;> simp [h]
      constructor
      · rw [hids]; exact hnd
      · rw [runningCount_eq_countP, List.countP_map]
        have hmono : s.countP ((fun t => t.status = Status.running) ∘ fun t =>
            if t.id = i then { t with status := finalStatusOf o } else t) ≤
            s.countP (fun t => t.status = Status.running) := by
          apply List.countP_mono_left
          intro t _ hp
          by_cases h : t.id = i
          · simp only [Function.comp, if_pos h, decide_eq_true_eq] at hp
            exact absurd hp (by cases o <;> simp [finalStatusOf])
          · simpa [Function.comp, h] using hp
        calc _ ≤ s.countP (fun t => t.status = Status.running) := hmono
          _ = runningCount s := (runningCount_eq_countP s).symm
          _ ≤ 1 := hrc
    · exact ⟨hnd, hrc⟩

/-- The store invariant holds in every reachable snapshot. -/
theorem reach_inv {s0 s : List Task} (h : Reach s0 s) (hi : StoreInv s0) : StoreInv s := by
  induction h with
  | refl => exact hi
  | tail hr hstep ih => exact step_preserves_inv hstep ih

/-! ## Document Codec lemmas -/
theorem dictLookup_mem (m : List (String × String)) (k tr : String)
    (h : dictLookup m k = some tr) : ∃ r ∈ m, r.2 = tr := by
  unfold dictLookup at h
  rcases hf : m.reverse.find? (fun r => r.1 == k) with _ | r
  · rw [hf] at h
    simp at h
  · rw [hf] at h
    simp only [Option.map_some', Option.some.injEq] at h
    exact ⟨r, List.mem_reverse.mp (List.mem_of_find?_eq_some hf), h⟩

/-- A translation map whose values are all empty never replaces a run. -/
theorem applyRepl_id (m : List (String × String)) (hm : ∀ r ∈ m, r.2 = "")
    (tx : Option String) : applyRepl m tx = tx := by
  unfold applyRepl
  rcases hf : dictLookup m (pyStrip (tx.getD "")) with _ | tr
  · rfl
  · rcases dictLookup_mem m _ tr hf with ⟨r, hr, hrtr⟩
    have htr : tr = "" := by
      rw [← hrtr]
      exact hm r hr
    simp [htr]

mutual
theorem rewriteNode_id (m : List (String × String)) (hm : ∀ r ∈ m, r.2 = "") (flag : Bool) :
    ∀ x : Xml, rewriteNode m flag x = x
  | .elem t tx ch => by
    rw [rewriteNode, rewriteList_id m hm (t == "CharacterStyleRange") ch]
    by_cases hc : (flag && t == "Content") = true
    · rw [if_pos hc, applyRepl_id m hm tx]
    · rw [if_neg hc]

theorem rewriteList_id (m : List (String × String)) (hm : ∀ r ∈ m, r.2 = "") (flag : Bool) :
    ∀ l : List Xml, rewriteList m flag l = l
  | [] => by rw [rewriteList]
  | c :: cs => by
    rw [rewriteList, rewriteNode_id m hm flag c, rewriteList_id m hm flag cs]
end

theorem rewriteXml_id (m : List (String × String)) (hm : ∀ r ∈ m, r.2 = "") (x : Xml) :
    rewriteXml m x = x := by
  cases x with
  | elem t tx ch =>
    rw [rewriteXml, rewriteList_id m hm false ch]

theorem storyTexts_ok (a : List Entry) (hwf : ArchiveWF a) : ∃ ts, storyTexts a = .ok ts := by
  induction a with
  | nil => exact ⟨[], rfl⟩
  | cons e es ih =>
    have hwf' : ArchiveWF es := fun x hx => hwf x (List.mem_cons_of_mem e hx)
    rcases ih hwf' with ⟨ts, hts⟩
    by_cases hst : isStoryName e.name = true
    · rcases hwf e (List.mem_cons_self e es) hst with ⟨x, hx⟩
      refine ⟨collectXml x ++ ts, ?_⟩
      rw [storyTexts, if_pos hst, hx, hts]
      rfl
    · refine ⟨ts, ?_⟩
      rw [storyTexts, if_neg hst, hts]

/-- Rebuilding through an all-empty translation map reproduces the
archive entry for entry. -/
theorem rebuildEntries_id (m : List (String × String)) (hm : ∀ r ∈ m, r.2 = "") :
    ∀ a : List Entry, ArchiveWF a → rebuildEntries m a = .ok a := by
  intro a
  induction a with
  | nil => intro _; rfl
  | cons e es ih =>
    intro hwf
    have hwf' : ArchiveWF es := fun x hx => hwf x (List.mem_cons_of_mem e hx)
    by_cases hst : isStoryName e.name = true
    · rcases hwf e (List.mem_cons_self e es) hst with ⟨x, hx⟩
      rw [rebuildEntries, if_pos hst, hx, ih hwf']
      dsimp only [Except.map]
      rw [rewriteXml_id m hm x]
      cases e with
      | mk name data =>
        dsimp only at hx
        rw [hx]
    · rw [rebuildEntries, if_neg hst, ih hwf']
      rfl

/-! ## Glossary Compiler lemmas -/
/-- A mandated-translation line is never a preserve-verbatim line (the
two f-strings differ in their fixed prefix). -/
theorem mandateLine_ne_preserveLine (t tr u : String) : mandateLine t tr ≠ preserveLine u := by
  intro h
  have hd := congrArg (fun s => s.data.take 4) h
  simp only [mandateLine, preserveLine, String.data_append, List.append_assoc] at hd
  rw [List.take_append_of_le_length (by decide),
    List.take_append_of_le_length (by decide)] at hd
  exact absurd hd (by decide)

/-- The preserve-verbatim line determines its term. -/
theorem preserveLine_inj {t u : String} (h : preserveLine t = preserveLine u) : t = u := by
  have hd := congrArg String.data h
  simp only [preserveLine, String.data_append] at hd
  exact str_data_inj (List.append_cancel_left (List.append_cancel_right hd))

/-- In a glossary with pairwise-distinct terms (a Python dict), a term
determines its translation row. -/
theorem glossary_key_val {g : Glossary} (hnd : (g.map (fun p => p.1)).Nodup)
    {k : String} {e1 e2 : LangMap} (h1 : (k, e1) ∈ g) (h2 : (k, e2) ∈ g) : e1 = e2 := by
  induction g with
  | nil => cases h1
  | cons p ps ih =>
    rw [List.map_cons] at hnd
    rcases List.nodup_cons.mp hnd with ⟨hnotin, hnd'⟩
    rcases List.mem_cons.mp h1 with h1 | h1 <;> rcases List.mem_cons.mp h2 with h2 | h2
    · exact congrArg Prod.snd (h1.trans h2.symm)
    · exfalso
      apply hnotin
      rw [← h1]
      exact List.mem_map.mpr ⟨(k, e2), h2, rfl⟩
    · exfalso
      apply hnotin
      rw [← h2]
      exact List.mem_map.mpr ⟨(k, e1), h1, rfl⟩
    · exact ih hnd' h1 h2

/-! ## Claim theorems -/
/-- C1, counterexample: when the Gateway raises, `translate_text` does NOT
return the empty string — it returns the original input text
(translator.py line 93 `return text_to_translate`). -/
theorem c1_counterexample :
    (translateText (fun _ _ => Except.error ()) [] "Hello" "en" "fr" "m").1 = "Hello" ∧
    "Hello" ≠ "" := ⟨rfl, by decide⟩

/-- C1, as amended: if the Gateway call raises for a unit, the shim
swallows the exception and returns the ORIGINAL input text (with its
whitespace) for that unit, and the enclosing batch and task continue: the
pipeline still finishes with a successful result rather than aborting. -/
theorem c1_unit_failure_swallowed (g : Gateway) (gl : Glossary) (sl tl md text : String)
    (bs : Nat) (ow : Bool) (csv : Csv)
    (hg : ∀ mo p, g mo p = Except.error ())
    (htext : pyStrip text ≠ "")
    (hs : csv.hasSource = true) (hbs : bs ≠ 0) :
    translateText g gl text sl tl md = (text, 1) ∧
    ∃ res, (processCsv g gl sl tl md bs ow csv).2 = Except.ok res := by
  constructor
  · unfold translateText
    rw [if_neg htext]
    simp only [hg]
  · simp only [processCsv, hs, if_true]
    split <;> exact ⟨_, rfl⟩

/-- Witness for C1's amended theorem at a concrete failing Gateway. -/
theorem c1_unit_failure_swallowed_witness :
    translateText (fun _ _ => Except.error ()) [] "Hi" "en" "fr" "m" = ("Hi", 1) ∧
    ∃ res, (processCsv (fun _ _ => Except.error ()) [] "en" "fr" "m" 1 false
        ⟨true, true, [(some "Hi", none)]⟩).2 = Except.ok res :=
  c1_unit_failure_swallowed (fun _ _ => Except.error ()) [] "en" "fr" "m" "Hi" 1 false
    ⟨true, true, [(some "Hi", none)]⟩ (fun _ _ => rfl) (by decide) rfl (by decide)

/-- C2, counterexample: a row with empty source AND empty target is
selected and counted by the pipeline under `overwrite=false` (the mask of
process.py line 70 tests only the target), while the claim's selection
(empty target AND non-empty source) is empty. -/
theorem c2_counterexample :
    (processCsv (fun _ _ => Except.ok "X") [] "en" "fr" "m" 1 false
        ⟨true, true, [(some "", some "")]⟩).2 =
      Except.ok ⟨[("", "")], [(0, 1), (1, 1)], 1⟩ ∧
    claimSelectedCount false [(("" : String), ("" : String))] = 0 := by
  constructor
  · simp [processCsv, workList, enumIdx, normRow, batchLoop.eq_def, runBatch, translateText,
      setTarget, pyStrip, stripL]
  · rfl

/-- C2, as amended: with `overwrite=false` the pipeline selects exactly
the rows whose target cell is empty (regardless of the source cell); with
`overwrite=true` it selects every row (regardless of the source cell);
and the total it reports is the size of that selection. -/
theorem c2_work_list_selection (g : Gateway) (gl : Glossary) (sl tl md : String)
    (bs : Nat) (ow : Bool) (csv : Csv) (hs : csv.hasSource = true) :
    (∀ i s, (i, s) ∈ workList false (csv.rows.map (normRow csv.hasTarget)) ↔
        (csv.rows.map (normRow csv.hasTarget))[i]? = some (s, "")) ∧
    (∀ i s, (i, s) ∈ workList true (csv.rows.map (normRow csv.hasTarget)) ↔
        ∃ t, (csv.rows.map (normRow csv.hasTarget))[i]? = some (s, t)) ∧
    (workList false (csv.rows.map (normRow csv.hasTarget))).length =
      ((csv.rows.map (normRow csv.hasTarget)).filter (fun r => r.2 == "")).length ∧
    (workList true (csv.rows.map (normRow csv.hasTarget))).length =
      (csv.rows.map (normRow csv.hasTarget)).length ∧
    (∀ res, (processCsv g gl sl tl md bs ow csv).2 = Except.ok res →
      res.reports.head? =
        some (0, (workList ow (csv.rows.map (normRow csv.hasTarget))).length)) := by
  refine ⟨?_, ?_, ?_, ?_, ?_⟩
  · exact workList_false_mem _
  · exact workList_true_mem _
  · exact workList_false_length _
  · exact workList_true_length _
  · exact fun res h => processCsv_ok_reports_head g gl sl tl md bs ow csv res hs h

/-- Witness for C2's amended theorem: an empty-target row is selected. -/
theorem c2_work_list_selection_witness :
    (0, "a") ∈ workList false ([((some "a" : Option String), (some "" : Option String)),
      (some "b", some "y")].map (normRow true)) :=
  ((c2_work_list_selection (fun _ _ => Except.ok "X") [] "en" "fr" "m" 2 false
      ⟨true, true, [(some "a", some ""), (some "b", some "y")]⟩ rfl).1 0 "a").mpr (by decide)

/-- C9: a table without a `source` column makes the pipeline fail with the
data-format error before any Gateway invocation (zero calls made). -/
theorem c9_missing_source_column (g : Gateway) (gl : Glossary) (sl tl md : String)
    (bs : Nat) (ow : Bool) (csv : Csv) (h : csv.hasSource = false) :
    processCsv g gl sl tl md bs ow csv = (0, Except.error PErr.missingSourceColumn) := by
  simp [processCsv, h]

/-- Witness for C9 at a concrete column-less table. -/
theorem c9_missing_source_column_witness :
    processCsv (fun _ _ => Except.ok "X") [] "en" "fr" "m" 10 false
      ⟨false, true, [(some "x", none)]⟩ = (0, Except.error PErr.missingSourceColumn) :=
  c9_missing_source_column _ _ _ _ _ _ _ _ rfl

/-- C10: a blank (empty or all-whitespace) input comes back unchanged with
zero Gateway invocations; any other input comes back as the input's own
leading and trailing whitespace around a translated core. -/
theorem c10_whitespace_handling (g : Gateway) (gl : Glossary) (text sl tl md : String) :
    ((∀ c ∈ text.data, pyIsSpace c = true) → translateText g gl text sl tl md = (text, 0)) ∧
    ((¬ ∀ c ∈ text.data, pyIsSpace c = true) →
      ∃ core, translateText g gl text sl tl md =
        (leadingWs text ++ core ++ trailingWs text, 1)) := by
  constructor
  · intro h
    exact translateText_all_ws g gl text sl tl md ((pyStrip_eq_empty_iff text).mpr h)
  · intro h
    apply translateText_core
    intro hc
    exact h ((pyStrip_eq_empty_iff text).mp hc)

/-- Witness for C10 at a whitespace-only and a padded input. -/
theorem c10_whitespace_handling_witness :
    translateText (fun _ _ => Except.ok "salut") [] "   " "en" "fr" "m" = ("   ", 0) ∧
    ∃ core, translateText (fun _ _ => Except.ok "salut") [] " hi " "en" "fr" "m" =
      (leadingWs " hi " ++ core ++ trailingWs " hi ", 1) :=
  ⟨(c10_whitespace_handling (fun _ _ => Except.ok "salut") [] "   " "en" "fr" "m").1 (by decide),
   (c10_whitespace_handling (fun _ _ => Except.ok "salut") [] " hi " "en" "fr" "m").2 (by decide)⟩

/-- C3: extracting a well-formed archive succeeds, the emitted table has
all-empty translation cells, and rebuilding through that table returns
the archive unchanged: story trees equal (textually equivalent modulo
serialization), non-story entries byte-identical, no entry added, removed
or reordered. -/
theorem c3_extract_rebuild_roundtrip (a : List Entry) (hwf : ArchiveWF a) :
    ∃ rows, extractIdmlRows a = Except.ok rows ∧ (∀ r ∈ rows, r.2 = "") ∧
      rebuildEntries rows a = Except.ok a := by
  rcases storyTexts_ok a hwf with ⟨ts, hts⟩
  refine ⟨(ts.filter (fun t => t ≠ "")).map (fun t => (t, "")), ?_, ?_, ?_⟩
  · unfold extractIdmlRows
    rw [hts]
    rfl
  · intro r hr
    rcases List.mem_map.mp hr with ⟨t, _, hteq⟩
    rw [← hteq]
  · apply rebuildEntries_id
    · intro r hr
      rcases List.mem_map.mp hr with ⟨t, _, hteq⟩
      rw [← hteq]
    · exact hwf

/-- Witness for C3 on the fixture archive. -/
theorem c3_extract_rebuild_roundtrip_witness :
    rebuildEntries [("Hello", "")] archiveEx = Except.ok archiveEx := by
  have hwf : ArchiveWF archiveEx := by
    intro e he hst
    simp only [archiveEx, List.mem_cons, List.not_mem_nil, or_false] at he
    rcases he with rfl | rfl
    · exact absurd hst (by decide)
    · exact ⟨storyEx, rfl⟩
  rcases c3_extract_rebuild_roundtrip archiveEx hwf with ⟨rows, hrows, _, hreb⟩
  have hval : extractIdmlRows archiveEx = Except.ok [("Hello", "")] := by
    have hst1 : isStoryName "mimetype" = false := by decide
    have hst2 : isStoryName "Stories/Story_u1.xml" = true := by decide
    have hstrip : pyStrip "Hello" = "Hello" := by decide
    have hne : (decide (("Hello" : String) = "")) = false := by decide
    simp [extractIdmlRows, storyTexts, archiveEx, storyEx, collectXml, collectNode,
      collectList, hst1, hst2, hstrip, Except.map, hne]
  rw [hval] at hrows
  rw [Except.ok.inj hrows]
  exact hreb

/-- C5: the dispatcher's terminal-status classification and `finally`
block: `completed` on normal finish, `cancelled` on the cancellation
signal, `error` otherwise; the id always leaves the in-flight registry;
the final status is written exactly to the still-existing records with
that id (and the store is untouched when the record was deleted); and
observers are always notified. -/
theorem c5_finalize_semantics (i : String) (o : JobOutcome) (reg : List String)
    (store : List Task) :
    (finalStatusOf JobOutcome.finished = Status.completed ∧
     finalStatusOf JobOutcome.cancelledSignal = Status.cancelled ∧
     finalStatusOf JobOutcome.raisedOther = Status.error) ∧
    i ∉ (finalizeTask i o reg store).1 ∧
    (finalizeTask i o reg store).2.2 = true ∧
    (store.any (fun t => t.id == i) = true →
      ∀ t ∈ (finalizeTask i o reg store).2.1, t.id = i → t.status = finalStatusOf o) ∧
    (store.any (fun t => t.id == i) = false → (finalizeTask i o reg store).2.1 = store) := by
  refine ⟨⟨rfl, rfl, rfl⟩, ?_, rfl, ?_, ?_⟩
  · intro hmem
    rcases List.mem_filter.mp hmem with ⟨_, hpred⟩
    simp at hpred
  · intro hany t ht hid
    unfold finalizeTask at ht
    dsimp only at ht
    rw [if_pos hany] at ht
    rcases List.mem_map.mp ht with ⟨u, _, hut⟩
    by_cases h : u.id = i
    · rw [if_pos h] at hut
      rw [← hut]
    · rw [if_neg h] at hut
      rw [← hut] at hid
      exact absurd hid h
  · intro hany
    unfold finalizeTask
    dsimp only
    rw [if_neg (by simp [hany])]

/-- Witness for C5 at concrete registry/store contents. -/
theorem c5_finalize_semantics_witness :
    "t1" ∉ (finalizeTask "t1" JobOutcome.finished ["t1", "t2"] [taskPending]).1 ∧
    (finalizeTask "t1" JobOutcome.finished ["t1", "t2"] [taskPending]).2.2 = true ∧
    (finalizeTask "t9" JobOutcome.raisedOther [] [taskPending]).2.1 = [taskPending] :=
  ⟨(c5_finalize_semantics "t1" JobOutcome.finished ["t1", "t2"] [taskPending]).2.1,
   (c5_finalize_semantics "t1" JobOutcome.finished ["t1", "t2"] [taskPending]).2.2.1,
   (c5_finalize_semantics "t9" JobOutcome.raisedOther [] [taskPending]).2.2.2.2 (by decide)⟩

/-- C6, counterexample: a row with empty source and empty target is
re-selected by a second `overwrite=false` run on the first run's own
output — the second run's processed count is 1, not 0. -/
theorem c6_counterexample :
    (processCsv (fun _ _ => Except.ok "X") [] "en" "fr" "m" 1 false
        ⟨true, true, [(some "", some "")]⟩).2 =
      Except.ok ⟨[("", "")], [(0, 1), (1, 1)], 1⟩ ∧
    (processCsv (fun _ _ => Except.ok "X") [] "en" "fr" "m" 1 false
        (csvOfRows [("", "")])).2 =
      Except.ok ⟨[("", "")], [(0, 1), (1, 1)], 1⟩ ∧
    (1 : Nat) ≠ 0 := by
  have hcsv : csvOfRows [("", "")] = ⟨true, true, [(none, none)]⟩ := by
    have hm : (("" : String) ∈ pdNaTokens) := by decide
    simp [csvOfRows, hm]
  refine ⟨?_, ?_, by decide⟩
  · simp [processCsv, workList, enumIdx, normRow, batchLoop.eq_def, runBatch,
      translateText, setTarget, pyStrip, stripL]
  · rw [hcsv]
    simp [processCsv, workList, enumIdx, normRow, batchLoop.eq_def, runBatch,
      translateText, setTarget, pyStrip, stripL]

/-- C6, as amended: provided every empty-target row's source cell is
outside pandas' default NA tokens, every non-empty target cell is
outside the NA tokens, and the Gateway never answers with an NA token or
quote-wrapped text, a second `overwrite=false` run on the first run's
checkpoint (re-read through `pd.read_csv`, whose NA tokens parse back to
empty cells) selects nothing: it makes zero Gateway calls and reports
processed count 0. -/
theorem c6_idempotent_rerun (g : Gateway) (gl : Glossary) (sl tl md : String) (bs : Nat)
    (csv : Csv)
    (hs : csv.hasSource = true)
    (H1 : ∀ r ∈ csv.rows.map (normRow csv.hasTarget), r.2 = "" → r.1 ∉ pdNaTokens)
    (H1t : ∀ r ∈ csv.rows.map (normRow csv.hasTarget), r.2 ≠ "" → r.2 ∉ pdNaTokens)
    (H2 : ∀ mo p r, g mo p = Except.ok r → r ∉ pdNaTokens ∧ quoteWrapped r = false) :
    ∀ res, (processCsv g gl sl tl md bs false csv).2 = Except.ok res →
      (processCsv g gl sl tl md bs false (csvOfRows res.rows)).1 = 0 ∧
      ∃ res2, (processCsv g gl sl tl md bs false (csvOfRows res.rows)).2 = Except.ok res2 ∧
        res2.processed = 0 ∧ res2.reports = [(0, 0)] := by
  intro res h
  have htna := processCsv_false_targets_na g gl sl tl md bs csv res hs H1 H1t H2 h
  apply processCsv_empty_work
  rw [List.eq_nil_iff_forall_not_mem]
  rintro ⟨i, s⟩ hmem
  rw [workList_false_mem] at hmem
  rw [List.getElem?_map] at hmem
  rcases hrr : res.rows[i]? with _ | r
  · rw [hrr] at hmem
    simp at hmem
  · rw [hrr] at hmem
    simp only [Option.map_some', Option.some.injEq] at hmem
    have h2 : pdRead r.2 = "" := congrArg Prod.snd hmem
    have hna := htna r (List.mem_iff_getElem?.mpr ⟨i, hrr⟩)
    unfold pdRead at h2
    rw [if_neg hna] at h2
    exact hna (by rw [h2]; decide)

/-- Witness for C6's amended theorem at a concrete one-row table. -/
theorem c6_idempotent_rerun_witness :
    (processCsv (fun _ _ => Except.ok "X") [] "en" "fr" "m" 1 false
        (csvOfRows [("hello", "X")])).1 = 0 ∧
    ∃ res2, (processCsv (fun _ _ => Except.ok "X") [] "en" "fr" "m" 1 false
        (csvOfRows [("hello", "X")])).2 = Except.ok res2 ∧
      res2.processed = 0 ∧ res2.reports = [(0, 0)] :=
  c6_idempotent_rerun (fun _ _ => Except.ok "X") [] "en" "fr" "m" 1
    ⟨true, true, [(some "hello", some "")]⟩ rfl (by decide) (by decide)
    (fun _ _ r hr => by cases hr; exact ⟨by decide, by decide⟩)
    ⟨[("hello", "X")], [(0, 1), (1, 1)], 1⟩
    (by
      have h1 : translateText (fun _ _ => Except.ok "X") [] "hello" "en" "fr" "m" =
          ("X", 1) := by decide
      simp [processCsv, workList, enumIdx, normRow, batchLoop.eq_def, runBatch, setTarget, h1])

/-- C8: during rebuild, a matched run's text is replaced exactly when its
trimmed content is a key of the translation map with a non-empty
translation; an empty or missing translation leaves the text untouched. -/
theorem c8_run_replacement (m : List (String × String)) (tx : Option String) (ch : List Xml) :
    (∀ tr, dictLookup m (pyStrip (tx.getD "")) = some tr → tr ≠ "" →
        (rewriteNode m true (Xml.elem "Content" tx ch)).textOf = some tr) ∧
    (dictLookup m (pyStrip (tx.getD "")) = some "" →
        (rewriteNode m true (Xml.elem "Content" tx ch)).textOf = tx) ∧
    (dictLookup m (pyStrip (tx.getD "")) = none →
        (rewriteNode m true (Xml.elem "Content" tx ch)).textOf = tx) := by
  have hnode : (rewriteNode m true (Xml.elem "Content" tx ch)).textOf = applyRepl m tx := by
    rw [rewriteNode]
    rfl
  refine ⟨?_, ?_, ?_⟩
  · intro tr hl htr
    rw [hnode]
    unfold applyRepl
    rw [hl]
    dsimp only
    rw [if_pos htr]
  · intro hl
    rw [hnode]
    unfold applyRepl
    rw [hl]
    simp
  · intro hl
    rw [hnode]
    unfold applyRepl
    rw [hl]

/-- Witness for C8: a matched run with a non-empty translation is
replaced. -/
theorem c8_run_replacement_witness :
    (rewriteNode [("OK", "ok-fr")] true (Xml.elem "Content" (some " OK ") [])).textOf =
      some "ok-fr" :=
  (c8_run_replacement [("OK", "ok-fr")] (some " OK ") []).1 "ok-fr" (by decide) (by decide)

/-- C4: in every store snapshot reachable (by any interleaving of the
atomic store mutations of the worker loop, the progress callback, the
`finally` block, uploads and deletes) from a store satisfying the
invariant — in particular from the empty store `initialize_tasks_file`
creates — at most one task has status `running`. -/
theorem c4_at_most_one_running (s0 s : List Task) (h : Reach s0 s) (hinv : StoreInv s0) :
    runningCount s ≤ 1 :=
  (reach_inv h hinv).2

/-- Witness for C4: a concrete snapshot reached from the empty store by
an upload followed by the worker picking the task up. -/
theorem c4_at_most_one_running_witness :
    runningCount [{ taskPending with status := Status.running }] ≤ 1 :=
  c4_at_most_one_running [] [{ taskPending with status := Status.running }]
    (Reach.tail
      (Reach.tail (Reach.refl []) (Step.enqueue [] taskPending (by simp) rfl))
      (by
        have hpick := Step.pick [taskPending] taskPending
          (by
            intro t ht
            rcases List.mem_singleton.mp ht with rfl
            simp [taskPending])
          (by simp [taskPending])
        simpa [taskPending] using hpick))
    ⟨by simp, by simp [runningCount]⟩

/-- C7: for a glossary term matching the unit's text as a whole word,
case-sensitively: a mandated (present, non-empty) translation for the
target language puts the mandated-translation line — and no
preserve-verbatim line for that term — into the rendered instruction set;
with no mandated translation the preserve-verbatim line is rendered; and
the glossary block is placed before the general rules with an explicit
highest-priority header. -/
theorem c7_glossary_rules (g : Glossary) (text lang term : String) (e : LangMap)
    (hnd : (g.map (fun p => p.1)).Nodup)
    (hmem : (term, e) ∈ g)
    (hmatch : wholeWordMatch term text = true) :
    (∀ tr, langGet e lang = some tr → tr ≠ "" →
        mandateLine term tr ∈ promptInstructions g text lang ∧
        preserveLine term ∉ promptInstructions g text lang) ∧
    ((langGet e lang = none ∨ langGet e lang = some "") →
        preserveLine term ∈ promptInstructions g text lang) ∧
    rulesSection (promptInstructions g text lang) =
      glossaryHeader ++ String.intercalate "\n" (promptInstructions g text lang) ++
        generalTail := by
  refine ⟨?_, ?_, ?_⟩
  · intro tr hget htr
    constructor
    · apply List.mem_filterMap.mpr
      refine ⟨(term, e), hmem, ?_⟩
      unfold glossInstr
      dsimp only
      rw [if_pos hmatch, hget]
      dsimp only
      rw [if_pos htr]
    · intro hcontra
      rcases List.mem_filterMap.mp hcontra with ⟨⟨t2, e2⟩, hmem2, hinst2⟩
      unfold glossInstr at hinst2
      dsimp only at hinst2
      by_cases hm2 : wholeWordMatch t2 text = true
      · rw [if_pos hm2] at hinst2
        rcases hg2 : langGet e2 lang with _ | tr2
        · rw [hg2] at hinst2
          dsimp only at hinst2
          have ht2 : t2 = term := preserveLine_inj (Option.some.inj hinst2)
          subst ht2
          have he2 : e2 = e := glossary_key_val hnd hmem2 hmem
          subst he2
          rw [hget] at hg2
          cases hg2
        · rw [hg2] at hinst2
          dsimp only at hinst2
          by_cases htr2 : tr2 ≠ ""
          · rw [if_pos htr2] at hinst2
            exact mandateLine_ne_preserveLine t2 tr2 term (Option.some.inj hinst2)
          · rw [if_neg htr2] at hinst2
            have ht2 : t2 = term := preserveLine_inj (Option.some.inj hinst2)
            subst ht2
            have he2 : e2 = e := glossary_key_val hnd hmem2 hmem
            subst he2
            rw [hget] at hg2
            rw [Option.some.inj hg2] at htr
            exact htr2 htr
      · rw [if_neg hm2] at hinst2
        cases hinst2
  · intro hcase
    apply List.mem_filterMap.mpr
    refine ⟨(term, e), hmem, ?_⟩
    unfold glossInstr
    dsimp only
    rw [if_pos hmatch]
    rcases hcase with hc | hc <;> rw [hc]
    dsimp only
    rw [if_neg (by simp)]
  · have hne : promptInstructions g text lang ≠ [] := by
      have hm : (match langGet e lang with
          | some tr => if tr ≠ "" then mandateLine term tr else preserveLine term
          | none => preserveLine term) ∈ promptInstructions g text lang := by
        apply List.mem_filterMap.mpr
        refine ⟨(term, e), hmem, ?_⟩
        unfold glossInstr
        dsimp only
        rw [if_pos hmatch]
      exact List.ne_nil_of_mem hm
    unfold rulesSection
    rw [if_pos hne]

/-- Witness for C7 on a one-term glossary with a mandated translation. -/
theorem c7_glossary_rules_witness :
    mandateLine "WiFi" "sans-fil" ∈
      promptInstructions [("WiFi", [("fr", some "sans-fil")])] "Use WiFi now" "fr" :=
  ((c7_glossary_rules [("WiFi", [("fr", some "sans-fil")])] "Use WiFi now" "fr" "WiFi"
      [("fr", some "sans-fil")] (by decide) (by decide) (by decide)).1 "sans-fil" rfl
      (by decide)).1

end Dingo
